import Mathlib

/-! Verification of the smart-rubbishbin server core, shallowly embedded
from server.js and server2.js: payload normalization, the bounded event
store, the per-bin time series, the moving average predictor and the
threshold ETA computation. Numbers are modelled as rationals: every
computation verified here involves only finite decimal arithmetic, and a
none value stands for the null and NaN results of the source. -/

namespace SmartBin

/-- JavaScript primitive values as they reach the normalization helpers:
numbers (modelled as rationals), strings, booleans, null and undefined. -/
inductive Prim where
  | undef : Prim
  | null : Prim
  | bool : Bool → Prim
  | num : ℚ → Prim
  | str : String → Prim
deriving DecidableEq

/-- A nested compartment object as probed by normalizeSensors: the four
fields the source reads, each holding an arbitrary primitive. -/
structure CompObj where
  ultrasonic : Prim := .undef
  distance : Prim := .undef
  dist : Prim := .undef
  weight : Prim := .undef
deriving DecidableEq

/-- A JavaScript value as probed by the sensor normalizer: a primitive or
a plain object holding compartment readings. -/
inductive Val where
  | prim : Prim → Val
  | obj : CompObj → Val
deriving DecidableEq

/-- JavaScript truthiness: undefined, null, false, zero and the empty
string are falsy; every object is truthy. -/
def Val.truthy : Val → Bool
  | .prim .undef => false
  | .prim .null => false
  | .prim (.bool b) => b
  | .prim (.num q) => !(q == 0)
  | .prim (.str s) => !(s == "")
  | .obj _ => true

/-- Whether a primitive is null or undefined, the test of the nullish
coalescing operator. -/
def Prim.isNullish : Prim → Bool
  | .undef => true
  | .null => true
  | _ => false

/-- The nullish coalescing operator on primitives: the first operand
unless it is null or undefined. -/
def Prim.coalesce (a b : Prim) : Prim := if a.isNullish then b else a

/-- Whether a value is null or undefined. -/
def Val.isNullish : Val → Bool
  | .prim p => p.isNullish
  | .obj _ => false

/-- The nullish coalescing operator on values. -/
def coalesceV (a b : Val) : Val := if a.isNullish then b else a

/-- The or operator of JavaScript: the first operand when truthy, else
the second. -/
def orV (a b : Val) : Val := if a.truthy then a else b

/-- Decimal digit test on character codes, the class 0-9 of the source
regular expressions. -/
def isDigitChar (c : Char) : Bool :=
  decide (48 ≤ c.toNat) && decide (c.toNat ≤ 57)

/-- Numeric value of a decimal digit character. -/
def digitVal (c : Char) : ℕ := c.toNat - 48

/-- Value of a digit list read left to right. -/
def digitsVal (ds : List Char) : ℕ := ds.foldl (fun a c => 10 * a + digitVal c) 0

/-- Parse the exponent part of a decimal literal: either nothing, or an
exponent marker followed by an optionally signed nonempty digit string
consuming the whole remaining input. Returns the signed exponent, none
when the remainder is not a wellformed exponent. -/
def parseExp : List Char → Option ℤ
  | [] => some 0
  | c :: rest =>
    if c = 'e' ∨ c = 'E' then
      match rest with
      | '+' :: ds => if ds ≠ [] ∧ ds.all isDigitChar then some (digitsVal ds) else none
      | '-' :: ds => if ds ≠ [] ∧ ds.all isDigitChar then some (-(digitsVal ds : ℤ)) else none
      | ds => if ds ≠ [] ∧ ds.all isDigitChar then some (digitsVal ds) else none
    else none

/-- Parse an unsigned decimal literal body: an integer digit string with
an optional fraction, or a bare fraction, followed by an optional
exponent; at least one digit must appear before the exponent. -/
def parseBody (cs : List Char) : Option ℚ :=
  let ip := cs.takeWhile isDigitChar
  let r1 := cs.dropWhile isDigitChar
  match r1 with
  | '.' :: r2 =>
    let fp := r2.takeWhile isDigitChar
    let r3 := r2.dropWhile isDigitChar
    if ip = [] ∧ fp = [] then none
    else
      (parseExp r3).map fun e =>
        ((digitsVal ip : ℚ) + (digitsVal fp : ℚ) / (10 : ℚ) ^ fp.length) * (10 : ℚ) ^ e
  | _ =>
    if ip = [] then none
    else (parseExp r1).map fun e => (digitsVal ip : ℚ) * (10 : ℚ) ^ e

/-- ECMAScript ToNumber on a string, restricted to decimal notation: the
empty string converts to 0, otherwise an optional sign followed by a
decimal literal; every other string converts to NaN, rendered none.
Hexadecimal, octal, binary and Infinity forms are not modelled: they
cannot survive the character filter of numOrNull, and the senders
modelled here do not emit them. Whitespace trimming is applied by the
callers that need it. -/
def jsNumber (s : String) : Option ℚ :=
  match s.toList with
  | [] => some 0
  | '+' :: rest => parseBody rest
  | '-' :: rest => (parseBody rest).map Neg.neg
  | cs => parseBody cs

/-- Membership in the character class kept by the replace call of
numOrNull. The source pattern is the negated class of 0-9, dot, the
range from plus to uppercase E, and the letters E and e; the range arises
because the hyphen between plus and E is unescaped, so the kept
characters are the digits, the dot, every character with code between 43
and 69, and the lowercase e. -/
def keepChar (c : Char) : Bool :=
  isDigitChar c || c.toNat == 46 ||
    (decide (43 ≤ c.toNat) && decide (c.toNat ≤ 69)) || c.toNat == 69 || c.toNat == 101

/-- The character stripping step of numOrNull. -/
def stripNonNumeric (s : String) : String := String.mk (s.toList.filter keepChar)

/-- numOrNull from server.js: numbers pass through unchanged, strings
are stripped by the regular expression and then converted with Number,
a NaN result mapping to null; every other type yields null. All
rationals count as finite, so the isFinite guard of the source is the
none case of the parser. -/
def numOrNull : Prim → Option ℚ
  | .num q => some q
  | .str s => jsNumber (stripNonNumeric s)
  | _ => none

/-- numOrNull applied to a general value: the typeof checks send numbers
and strings into the cases above and everything else to null. -/
def numOrNullV : Val → Option ℚ
  | .prim p => numOrNull p
  | .obj _ => none

/-- The configured empty-bin distance: 30 cm reads as empty. -/
def BIN_HEIGHT_CM : ℚ := 30

/-- Math.round of JavaScript: round half toward positive infinity. -/
def jround (q : ℚ) : ℤ := ⌊q + 1 / 2⌋

/-- percentFull from server2.js on a finite distance: clamp the distance
between 0 and the height and convert to a rounded percentage. -/
def percentFullQ (distance height : ℚ) : ℤ :=
  jround ((1 - max 0 (min distance height) / height) * 100)

/-- percentFull including the finiteness guard: none models both a
non-finite input and the null result. -/
def percentFull (distance : Option ℚ) (height : ℚ) : Option ℤ :=
  distance.map fun d => percentFullQ d height

/-- The clamp helper of server2.js: the value pulled between the two
bounds. -/
def clampQ (v lo hi : ℚ) : ℚ := max lo (min hi v)

/-- A stored event: the id field is the only one the store logic reads;
payload stands for every other field of the entry object. -/
structure Entry where
  id : String
  payload : String
deriving DecidableEq

/-- The module level store of server.js: the lastResult variable and the
bounded history array. -/
structure Store where
  lastResult : Option Entry
  history : List Entry
deriving DecidableEq

/-- The history capacity of server.js. -/
def MAX_HISTORY : ℕ := 200

/-- The store at process start: no last result, empty history. -/
def emptyStore : Store := ⟨none, []⟩

/-- Id assignment at store time: a missing id (the empty string) is
replaced by the freshly generated one. -/
def assignId (fresh : String) (e : Entry) : Entry :=
  if e.id = "" then { e with id := fresh } else e

/-- storeAndBroadcast from server.js, store component: assign an id when
missing, set lastResult, push onto history, and shift the oldest entry
off the front when the length passes MAX_HISTORY. The socket broadcast
and the sensors-entry time series side effect of server2.js touch state
outside this store and are modelled separately by appendSeries. -/
def storeAndBroadcast (fresh : String) (e : Entry) (st : Store) : Store :=
  let e2 := assignId fresh e
  let h2 := st.history ++ [e2]
  { lastResult := some e2
    history := if MAX_HISTORY < h2.length then h2.tail else h2 }

/-- The entry removal of the acknowledge route: findIndex on id equality
followed by splice, which removes the first matching entry and leaves
the array unchanged when no entry matches. -/
def removeFirstById (id : String) : List Entry → List Entry
  | [] => []
  | e :: rest => if e.id = id then rest else e :: removeFirstById id rest

/-- The acknowledge route, store component: remove the first entry with
the given id, and when lastResult carries that id replace it by the tail
of the remaining buffer, or by null when the buffer emptied. Returns the
new store and the id reported back as removed. -/
def removeById (st : Store) (id : String) : Store × String :=
  let h2 := removeFirstById id st.history
  let last2 :=
    match st.lastResult with
    | some lr => if lr.id = id then h2.getLast? else some lr
    | none => none
  (⟨last2, h2⟩, id)

/-- The store operations reachable from the outside: recording an entry
(with the id that makeId would supply) and acknowledging an id. -/
inductive Op where
  | record : String → Entry → Op
  | ack : String → Op

/-- One operation applied to the store. -/
def stepOp (st : Store) : Op → Store
  | .record fresh e => storeAndBroadcast fresh e st
  | .ack id => (removeById st id).1

/-- A whole operation sequence applied to the empty store. -/
def runOps (ops : List Op) : Store := ops.foldl stepOp emptyStore

/-- A sequence of record operations applied to a store; each input pairs
the fresh id with the entry. -/
def runRecords (ps : List (String × Entry)) (st : Store) : Store :=
  ps.foldl (fun s p => storeAndBroadcast p.1 p.2 s) st

/-- The entry actually stored for an input pair. -/
def recordOf (p : String × Entry) : Entry := assignId p.1 p.2

/-- The store invariant relating lastResult to the history buffer:
lastResult is exactly the most recently inserted surviving entry. -/
def StoreInv (st : Store) : Prop := st.lastResult = st.history.getLast?

/-- A point of a per-bin time series: epoch milliseconds and the
distance reading. -/
structure TPoint where
  t : ℤ
  distance_cm : ℚ
deriving DecidableEq

/-- The retention cutoff of appendLog: thirty days before now, in
milliseconds. -/
def retentionCutoff (now : ℤ) : ℤ := now - 30 * 24 * 3600 * 1000

/-- The while loop of appendLog: shift points off the head while the
head is older than the cutoff. -/
def trimHead (c : ℤ) : List TPoint → List TPoint
  | [] => []
  | p :: rest => if p.t < c then trimHead c rest else p :: rest

/-- appendLog from server2.js, series component: push the new point at
the tail, then trim expired points from the head. -/
def appendSeries (now : ℤ) (arr : List TPoint) (p : TPoint) : List TPoint :=
  trimHead (retentionCutoff now) (arr ++ [p])

/-- The ETA block of forecastPercentFull in server2.js: with the clamped
current level, an ETA in hours is produced only for a positive slope and
a level below 90, guarded again by finiteness and nonnegativity. -/
def eta90Forecast (current slope : ℚ) : Option ℚ :=
  if 0 < slope ∧ current < 90 then
    let hoursTo90 := (90 - current) / slope
    if 0 ≤ hoursTo90 then some hoursTo90 else none
  else none

/-- The ETA block of the moving average predict route in server2.js: the
slope must be truthy (neither null nor zero), positive, and the last
average below 90; the resulting hour count is guarded to be finite and
nonnegative. -/
def eta90Predict (slope : Option ℚ) (lastPct : ℚ) : Option ℚ :=
  match slope with
  | none => none
  | some s =>
    if s ≠ 0 ∧ 0 < s ∧ lastPct < 90 then
      let hrs := (90 - lastPct) / s
      if 0 ≤ hrs then some hrs else none
    else none

/-- The moving average loop of the predict route: entry i averages the
slice from max 0 (i - 4) to i of the percent series; natural
subtraction makes the lower index the max of the source. -/
def movingAvg (hs : List ℚ) : List ℚ :=
  (List.range hs.length).map fun i =>
    let slice := (hs.take (i + 1)).drop (i - 4)
    slice.sum / (slice.length : ℚ)

/-- The slope of the predict route: difference of the last two moving
averages, null when fewer than two exist. -/
def slopeOfAvg (m : List ℚ) : Option ℚ :=
  if 2 ≤ m.length then some (m.getD (m.length - 1) 0 - m.getD (m.length - 2) 0)
  else none

/-- One projection step of the predict loop: add the slope, defaulting
to one half when the slope is null, then clamp into the unit percent
range. -/
def projStep (slope : Option ℚ) (c : ℚ) : ℚ :=
  min 100 (max 0 (c + slope.getD (1 / 2)))

/-- The forecast point loop of the predict route, emitting the rounded
clamped running value for each forecast hour. -/
def forecastPoints (slope : Option ℚ) : ℕ → ℚ → List ℤ
  | 0, _ => []
  | n + 1, c =>
    let c2 := projStep slope c
    jround c2 :: forecastPoints slope n c2

/-- The output of the predict route relevant to the forecast claims. -/
structure PredictOut where
  slope_per_hr : Option ℚ
  points : List ℤ
deriving DecidableEq

/-- The moving average predict route of server2.js: empty history short
circuits to an empty forecast; otherwise the moving averages, their
final difference as slope, and the projected points. -/
def predictRoute (hs : List ℚ) (hours : ℕ) : PredictOut :=
  if hs = [] then ⟨none, []⟩
  else
    let m := movingAvg hs
    let slope := slopeOfAvg m
    let lastPct := m.getD (m.length - 1) 0
    ⟨slope, forecastPoints slope hours lastPct⟩

/-- The output of a compartment branch of normalizeSensors: ultrasonic
and weight set only when finite. -/
structure CompOut where
  ultrasonic : Option ℚ
  weight : Option ℚ
deriving DecidableEq

/-- The canonical compartment readings produced by normalizeSensors. -/
structure SensorsOut where
  recycle : Option CompOut
  general : Option CompOut
deriving DecidableEq

/-- The object shape probed by normalizeSensors: every key the source
reads, each holding an arbitrary value; nonRecyclableKey stands for the
hyphenated non-recyclable property name. -/
structure SensorsIn where
  recycle : Val := .prim .undef
  recyclable : Val := .prim .undef
  blue : Val := .prim .undef
  comp1 : Val := .prim .undef
  general : Val := .prim .undef
  nonRecyclableKey : Val := .prim .undef
  trash : Val := .prim .undef
  black : Val := .prim .undef
  comp2 : Val := .prim .undef
  nonrecycle : Val := .prim .undef
  ultrasonic : Val := .prim .undef
  distance : Val := .prim .undef
  dist : Val := .prim .undef
  weight : Val := .prim .undef
deriving DecidableEq

/-- The alias resolution chain for the recycle compartment, in source
order: recycle, recyclable, blue, comp1, then the repeated bracket
accesses of recyclable and recycle. -/
def recycleSrc (s : SensorsIn) : Val :=
  orV s.recycle (orV s.recyclable (orV s.blue (orV s.comp1 (orV s.recyclable s.recycle))))

/-- The alias resolution chain for the general compartment, in source
order: general, non-recyclable, trash, black, comp2, nonrecycle. -/
def generalSrc (s : SensorsIn) : Val :=
  orV s.general (orV s.nonRecyclableKey (orV s.trash (orV s.black (orV s.comp2 s.nonrecycle))))

/-- The guard of a compartment branch: truthy and of object type; only
a real object passes, since null is falsy. -/
def asObj : Val → Option CompObj
  | .obj o => some o
  | .prim _ => none

/-- A compartment branch body: read ultrasonic with distance and dist as
nullish fallbacks, and weight, keeping only finite numbers; the
isFiniteNum guards of the source are the some cases of numOrNull. -/
def readComp (o : CompObj) : CompOut :=
  ⟨numOrNull (o.ultrasonic.coalesce (o.distance.coalesce o.dist)),
   numOrNull o.weight⟩

/-- normalizeSensors from server.js: nested alias resolution for the two
compartments, then the flat legacy fallback onto recycle when neither
compartment branch ran and a finite flat reading or weight exists. A
branch that runs always creates its compartment object, so an empty
compartment still blocks the fallback. -/
def normalizeSensors (s : SensorsIn) : SensorsOut :=
  let recycleBranch := (asObj (recycleSrc s)).map readComp
  let generalBranch := (asObj (generalSrc s)).map readComp
  let uFlat := numOrNullV (coalesceV s.ultrasonic (coalesceV s.distance s.dist))
  let wFlat := numOrNullV s.weight
  if recycleBranch.isNone ∧ generalBranch.isNone ∧ (uFlat.isSome ∨ wFlat.isSome) then
    ⟨some ⟨uFlat, wFlat⟩, none⟩
  else
    ⟨recycleBranch, generalBranch⟩

/-- String conversion of JavaScript as used by safeStr and the
recyclable token check. Numbers render through the Lean rational
printer, which differs in surface form from JavaScript for
non-integers; the only downstream uses compare the result against the
fixed tokens yes, no and contaminated or test emptiness after trim, and
no numeric rendering meets either, so the difference is not observable
in the functions verified here. -/
def primToString : Prim → String
  | .undef => "undefined"
  | .null => "null"
  | .bool b => if b then "true" else "false"
  | .num q => toString q
  | .str s => s

/-- safeStr from server.js: null and undefined give undefined, other
values stringify and trim, with an empty result dropped. -/
def safeStr (v : Prim) : Option String :=
  match v with
  | .null => none
  | .undef => none
  | _ =>
    let s := (primToString v).trim
    if s = "" then none else some s

/-- A JavaScript number as produced by ToNumber: NaN, one of the two
infinities, or a finite value modelled as a rational. -/
inductive JsNum where
  | nan : JsNum
  | posInf : JsNum
  | negInf : JsNum
  | fin : ℚ → JsNum
deriving DecidableEq

/-- JavaScript truthiness of a number: NaN and zero are falsy, the
infinities and every other value truthy. -/
def JsNum.truthy : JsNum → Bool
  | .nan => false
  | .posInf => true
  | .negInf => true
  | .fin q => !(q == 0)

/-- The whitespace trimmed by ToNumber: tab, line feed, vertical tab,
form feed, carriage return, space and no-break space; the remaining
Unicode space separators are not used by the modelled senders. -/
def isJsWhitespace (c : Char) : Bool :=
  decide (c.toNat ∈ [9, 10, 11, 12, 13, 32, 160])

/-- The character list of a string with surrounding whitespace
removed. -/
def trimChars (s : String) : List Char :=
  ((s.toList.dropWhile isJsWhitespace).reverse.dropWhile isJsWhitespace).reverse

/-- Value of a hexadecimal digit character, none for other
characters. -/
def hexDigitVal (c : Char) : Option ℕ :=
  if 48 ≤ c.toNat ∧ c.toNat ≤ 57 then some (c.toNat - 48)
  else if 97 ≤ c.toNat ∧ c.toNat ≤ 102 then some (c.toNat - 87)
  else if 65 ≤ c.toNat ∧ c.toNat ≤ 70 then some (c.toNat - 55)
  else none

/-- Value of a digit list in the given radix, none when the list is
empty or holds a character that is not a digit of that radix. -/
def radixVal (radix : ℕ) (ds : List Char) : Option ℕ :=
  if ds = [] then none
  else
    ds.foldl
      (fun acc c =>
        match acc, hexDigitVal c with
        | some a, some v => if v < radix then some (radix * a + v) else none
        | _, _ => none)
      (some 0)

/-- An unsigned non-decimal numeric literal of ToNumber: a leading 0x,
0o or 0b marker in either case followed by digits of that radix.
ToNumber accepts these only unsigned and only as the whole string. -/
def nonDecimalLiteral : List Char → Option ℕ
  | '0' :: c :: ds =>
    if c = 'x' ∨ c = 'X' then radixVal 16 ds
    else if c = 'o' ∨ c = 'O' then radixVal 8 ds
    else if c = 'b' ∨ c = 'B' then radixVal 2 ds
    else none
  | _ => none

/-- The smallest magnitude that rounds to an infinity under IEEE
binary64 round to nearest, ties to even: the midpoint between the
largest finite double and 2 to the 1024. -/
def DOUBLE_OVERFLOW : ℚ := 2 ^ 1024 - 2 ^ 970

/-- The largest positive magnitude that rounds to zero under IEEE
binary64: the midpoint between zero and the smallest subnormal. -/
def DOUBLE_UNDERFLOW : ℚ := 1 / 2 ^ 1075

/-- Push an exactly parsed value through the edges of the double range:
overflow becomes the matching infinity and underflow becomes zero;
values in between keep their exact rational value, the rational idiom
of this file standing in for the nearest double. -/
def toDouble (q : ℚ) : JsNum :=
  if DOUBLE_OVERFLOW ≤ q then .posInf
  else if q ≤ -DOUBLE_OVERFLOW then .negInf
  else if |q| ≤ DOUBLE_UNDERFLOW then .fin 0
  else .fin q

/-- ECMAScript ToNumber on a string reached with no prior character
filter, as on the override path: surrounding whitespace is trimmed, an
empty remainder gives 0, the signed Infinity words give the
infinities, an unsigned hexadecimal, octal or binary literal gives its
value, and otherwise an optionally signed decimal literal is parsed
exactly; parsed values pass through the double overflow and underflow
edges, and every other string is NaN. -/
def toNumberString (s : String) : JsNum :=
  match trimChars s with
  | [] => .fin 0
  | cs =>
    if cs = "Infinity".toList ∨ cs = "+Infinity".toList then .posInf
    else if cs = "-Infinity".toList then .negInf
    else
      match nonDecimalLiteral cs with
      | some n => toDouble (n : ℚ)
      | none =>
        match cs with
        | '+' :: rest =>
          match parseBody rest with
          | some q => toDouble q
          | none => .nan
        | '-' :: rest =>
          match parseBody rest with
          | some q => toDouble (-q)
          | none => .nan
        | cs2 =>
          match parseBody cs2 with
          | some q => toDouble q
          | none => .nan

/-- ECMAScript ToNumber as applied by the override coercion: numbers
pass, strings convert through the unfiltered string rules above, null
and false give 0, true gives 1, undefined and plain objects give
NaN. -/
def jsToNumber : Val → JsNum
  | .prim (.num q) => .fin q
  | .prim (.str s) => toNumberString s
  | .prim .null => .fin 0
  | .prim (.bool b) => .fin (if b then 1 else 0)
  | .prim .undef => .nan
  | .obj _ => .nan

/-- The override coercion of normalizeClassification: exactly 1 for the
number 1 or the string 1; otherwise Number of the value when that is
truthy (neither NaN nor zero, the infinities included), else 0. -/
def classOverride (v : Val) : JsNum :=
  if v = .prim (.num 1) ∨ v = .prim (.str "1") then .fin 1
  else if (jsToNumber v).truthy then jsToNumber v else .fin 0

/-- The classification payload shape: every field the source reads. The
sensors field is either absent (undefined, which the parameter default
of normalizeSensors turns into the empty object) or a sensors object;
the override field may hold any value. -/
structure ClassIn where
  bin_id : Prim := .undef
  label : Prim := .undef
  confidence : Prim := .undef
  time_ms : Prim := .undef
  timestamp : Prim := .undef
  recyclable : Prim := .undef
  override : Val := .prim .undef
  sensors : Option SensorsIn := none
deriving DecidableEq

/-- The normalized classification event. -/
structure ClassEvent where
  source : String
  kind : String
  bin_id : Option String
  label : Option String
  confidence : Option ℚ
  time_ms : Option ℚ
  timestamp : Prim
  recyclable : Option String
  sensors : SensorsOut
  override : JsNum
deriving DecidableEq

/-- normalizeClassification from server.js, parametrized by the
ingestion timestamp string used when the payload carries none. The
isFiniteNum re-checks of confidence and time_ms are identities here
because numOrNull already yields none for non-finite results. -/
def normalizeClassification (now : String) (source : String) (p : ClassIn) : ClassEvent :=
  let recyRaw := (primToString (p.recyclable.coalesce (.str ""))).trim.toLower
  { source := source
    kind := "classification"
    bin_id := safeStr p.bin_id
    label := safeStr p.label
    confidence := numOrNull p.confidence
    time_ms := numOrNull p.time_ms
    timestamp := if (Val.prim p.timestamp).truthy then p.timestamp else .str now
    recyclable :=
      if recyRaw = "yes" ∨ recyRaw = "no" ∨ recyRaw = "contaminated" then some recyRaw else none
    sensors := normalizeSensors (p.sensors.getD {})
    override := classOverride p.override }

/-- The kept character set of numOrNull in enumerated form: digits, the
dot, the lowercase e, and the seventeen characters whose codes lie in
the range from plus to uppercase E without being digits, namely plus,
comma, hyphen, dot, slash, colon, semicolon, the comparison signs,
question mark, at sign, and the capitals A through E. Used to state the
amended stripping claim independently of the range encoding. -/
def keepCharEnum (c : Char) : Bool :=
  isDigitChar c || c.toNat == 46 || c.toNat == 101 ||
    decide (c.toNat ∈ [43, 44, 45, 46, 47, 58, 59, 60, 61, 62, 63, 64, 65, 66, 67, 68, 69])

/-- Modelled from the spec wording of numeric coercion: strips all
characters except digits, sign, decimal point, and exponent marker,
then parses. Present only to compare against the implemented filter. -/
def specKeepChar (c : Char) : Bool :=
  isDigitChar c || c.toNat == 43 || c.toNat == 45 || c.toNat == 46 ||
    c.toNat == 101 || c.toNat == 69

/-- Modelled from the spec wording of numOrNull: numbers pass through,
strings are stripped to digits, signs, the decimal point, and exponent
markers, then parsed. Compared with numOrNull to settle the stripping
claim. -/
def numOrNullSpec : Prim → Option ℚ
  | .num q => some q
  | .str s => jsNumber (String.mk (s.toList.filter specKeepChar))
  | _ => none

/-- A sensors payload with its flat legacy fields erased, used to state
that the flat fallback is ignored once a compartment branch runs. -/
def clearFlat (s : SensorsIn) : SensorsIn :=
  { s with
    ultrasonic := .prim .undef
    distance := .prim .undef
    dist := .prim .undef
    weight := .prim .undef }

/-! ## Helper lemmas -/

theorem JsNum.truthy_iff (n : JsNum) :
    n.truthy = true ↔ n ≠ .nan ∧ n ≠ .fin 0 := by
  cases n with
  | nan => simp [JsNum.truthy]
  | posInf => simp [JsNum.truthy]
  | negInf => simp [JsNum.truthy]
  | fin q => simp [JsNum.truthy]

theorem jround_nonneg {x : ℚ} (h : 0 ≤ x) : 0 ≤ jround x := by
  rw [jround]
  exact Int.le_floor.mpr (by push_cast; linarith)

theorem jround_le_hundred {x : ℚ} (h : x ≤ 100) : jround x ≤ 100 := by
  rw [jround]
  have : ⌊x + 1 / 2⌋ < 101 := Int.floor_lt.mpr (by push_cast; linarith)
  omega

theorem jround_mono {x y : ℚ} (h : x ≤ y) : jround x ≤ jround y :=
  Int.floor_le_floor (by linarith)

theorem trimHead_eq_dropWhile (c : ℤ) (l : List TPoint) :
    trimHead c l = l.dropWhile (fun q => decide (q.t < c)) := by
  induction l with
  | nil => rfl
  | cons p rest ih =>
    by_cases h : p.t < c
    · simp [trimHead, h, List.dropWhile_cons, ih]
    · simp [trimHead, h, List.dropWhile_cons]

theorem head?_trimHead (c : ℤ) (l : List TPoint) (q : TPoint)
    (h : (trimHead c l).head? = some q) : c ≤ q.t := by
  induction l with
  | nil => simp [trimHead] at h
  | cons p rest ih =>
    by_cases hp : p.t < c
    · rw [trimHead, if_pos hp] at h
      exact ih h
    · rw [trimHead, if_neg hp] at h
      simp only [List.head?_cons, Option.some_inj] at h
      subst h
      omega

/-! ## Claim theorems -/

/-- C3: for every finite distance with 0 ≤ distance and every positive
height, percentFull is an integer in the range 0 to 100, equals the
rounding of 100 times one minus the clamped distance over the height,
and is non-increasing as the distance increases with the height fixed. -/
theorem C3_percentFull_range_formula_monotone :
    ∀ d d2 h : ℚ, 0 ≤ d → 0 < h →
      0 ≤ percentFullQ d h ∧ percentFullQ d h ≤ 100 ∧
      percentFull (some d) h = some (jround (100 * (1 - clampQ d 0 h / h))) ∧
      (d ≤ d2 → percentFullQ d2 h ≤ percentFullQ d h) := by
  intro d d2 h hd hh
  have hclamp : clampQ d 0 h = max 0 (min d h) := by
    rw [clampQ, min_comm]
  have hc0 : 0 ≤ max 0 (min d h) := le_max_left _ _
  have hch : max 0 (min d h) ≤ h := max_le hh.le (min_le_right _ _)
  have hr0 : 0 ≤ max 0 (min d h) / h := div_nonneg hc0 hh.le
  have hr1 : max 0 (min d h) / h ≤ 1 := (div_le_one hh).mpr hch
  refine ⟨?_, ?_, ?_, ?_⟩
  · exact jround_nonneg (by nlinarith)
  · exact jround_le_hundred (by nlinarith)
  · show some (percentFullQ d h) = _
    rw [percentFullQ, hclamp]
    ring_nf
  · intro hdd
    have hcc : max 0 (min d h) ≤ max 0 (min d2 h) := by
      gcongr
    have hdiv : max 0 (min d h) / h ≤ max 0 (min d2 h) / h := by
      gcongr
    exact jround_mono (by nlinarith)

/-- C3 witness at distance 5, larger distance 6, height 30. -/
theorem C3_witness :
    0 ≤ percentFullQ 5 30 ∧ percentFullQ 5 30 ≤ 100 ∧
    percentFull (some 5) 30 = some (jround (100 * (1 - clampQ 5 0 30 / 30))) ∧
    percentFullQ 6 30 ≤ percentFullQ 5 30 := by
  have h := C3_percentFull_range_formula_monotone 5 6 30 (by norm_num) (by norm_num)
  exact ⟨h.1, h.2.1, h.2.2.1, h.2.2.2 (by norm_num)⟩

/-- C4: for every current fill level and slope, both ETA computations
yield null when the slope is nonpositive, yield null when the level has
already reached 90, and otherwise yield the hour count
(90 - current) / slope, which is strictly positive. -/
theorem C4_eta_guards_and_positive :
    ∀ current slope : ℚ,
      (slope ≤ 0 →
        eta90Forecast current slope = none ∧ eta90Predict (some slope) current = none) ∧
      (90 ≤ current →
        eta90Forecast current slope = none ∧ eta90Predict (some slope) current = none) ∧
      (0 < slope → current < 90 →
        eta90Forecast current slope = some ((90 - current) / slope) ∧
        eta90Predict (some slope) current = some ((90 - current) / slope) ∧
        0 < (90 - current) / slope) := by
  intro current slope
  refine ⟨?_, ?_, ?_⟩
  · intro hs
    constructor
    · rw [eta90Forecast, if_neg]
      rintro ⟨h1, _⟩
      linarith
    · simp only [eta90Predict]
      rw [if_neg]
      rintro ⟨_, h2, _⟩
      linarith
  · intro hc
    constructor
    · rw [eta90Forecast, if_neg]
      rintro ⟨_, h2⟩
      linarith
    · simp only [eta90Predict]
      rw [if_neg]
      rintro ⟨_, _, h3⟩
      linarith
  · intro hs hc
    have hpos : 0 < (90 - current) / slope := div_pos (by linarith) hs
    refine ⟨?_, ?_, hpos⟩
    · rw [eta90Forecast, if_pos ⟨hs, hc⟩, if_pos hpos.le]
    · simp only [eta90Predict]
      rw [if_pos ⟨ne_of_gt hs, hs, hc⟩, if_pos hpos.le]

/-- C4 witness: a negative slope and a level past threshold yield null,
and level 50 with slope 2 yields the positive ETA of 20 hours. -/
theorem C4_witness :
    eta90Forecast 50 (-1) = none ∧ eta90Predict (some (-1)) 50 = none ∧
    eta90Forecast 95 2 = none ∧ eta90Predict (some 2) 95 = none ∧
    eta90Forecast 50 2 = some 20 ∧ eta90Predict (some 2) 50 = some 20 := by
  have h1 := (C4_eta_guards_and_positive 50 (-1)).1 (by norm_num)
  have h2 := (C4_eta_guards_and_positive 95 2).2.1 (by norm_num)
  have h3 := (C4_eta_guards_and_positive 50 2).2.2 (by norm_num) (by norm_num)
  have he : (90 - 50 : ℚ) / 2 = 20 := by norm_num
  exact ⟨h1.1, h1.2, h2.1, h2.2, by rw [h3.1, he], by rw [h3.2.1, he]⟩

/-- C5: appending a point pushes it at the tail and then removes exactly
the maximal expired prefix, preserving the order of the remainder: the
result is the dropWhile of the expiry test, the removed part is a prefix
whose points are all expired, and the surviving head is not expired. -/
theorem C5_appendSeries_trims_exact_prefix :
    ∀ (now : ℤ) (arr : List TPoint) (p : TPoint),
      appendSeries now arr p =
        (arr ++ [p]).dropWhile (fun q => decide (q.t < retentionCutoff now)) ∧
      ∃ pre,
        arr ++ [p] = pre ++ appendSeries now arr p ∧
        (∀ q ∈ pre, q.t < retentionCutoff now) ∧
        ∀ q, (appendSeries now arr p).head? = some q → retentionCutoff now ≤ q.t := by
  intro now arr p
  have hdw := trimHead_eq_dropWhile (retentionCutoff now) (arr ++ [p])
  refine ⟨hdw, (arr ++ [p]).takeWhile (fun q => decide (q.t < retentionCutoff now)), ?_, ?_, ?_⟩
  · rw [appendSeries, hdw, List.takeWhile_append_dropWhile]
  · intro q hq
    have := List.mem_takeWhile_imp hq
    exact of_decide_eq_true this
  · intro q hq
    exact head?_trimHead _ _ _ hq

/-- C5 witness: a concrete series where an expired head is trimmed while
an equally old point behind a fresh one survives. -/
theorem C5_witness :
    appendSeries 2592000100 [⟨50, 1⟩, ⟨200, 2⟩, ⟨60, 3⟩] ⟨70, 4⟩ =
      (([⟨50, 1⟩, ⟨200, 2⟩, ⟨60, 3⟩] : List TPoint) ++ [(⟨70, 4⟩ : TPoint)]).dropWhile
        (fun q => decide (q.t < retentionCutoff 2592000100)) ∧
    ∃ pre,
      (([⟨50, 1⟩, ⟨200, 2⟩, ⟨60, 3⟩] : List TPoint) ++ [(⟨70, 4⟩ : TPoint)]) =
        pre ++ appendSeries 2592000100 [⟨50, 1⟩, ⟨200, 2⟩, ⟨60, 3⟩] ⟨70, 4⟩ ∧
      (∀ q ∈ pre, q.t < retentionCutoff 2592000100) ∧
      ∀ q, (appendSeries 2592000100 [⟨50, 1⟩, ⟨200, 2⟩, ⟨60, 3⟩] ⟨70, 4⟩).head? = some q →
        retentionCutoff 2592000100 ≤ q.t :=
  C5_appendSeries_trims_exact_prefix 2592000100
    ([⟨50, 1⟩, ⟨200, 2⟩, ⟨60, 3⟩] : List TPoint) (⟨70, 4⟩ : TPoint)

theorem storeAndBroadcast_history_lt (st : Store) (fresh : String) (e : Entry)
    (h : st.history.length < MAX_HISTORY) :
    (storeAndBroadcast fresh e st).history = st.history ++ [assignId fresh e] := by
  show (if MAX_HISTORY < (st.history ++ [assignId fresh e]).length then _ else _) = _
  rw [if_neg]
  simp only [List.length_append, List.length_singleton]
  omega

theorem storeAndBroadcast_history_full (st : Store) (fresh : String) (e : Entry)
    (h : st.history.length = MAX_HISTORY) :
    (storeAndBroadcast fresh e st).history = st.history.tail ++ [assignId fresh e] := by
  have hne : st.history ≠ [] := by
    intro heq
    rw [heq] at h
    simp [MAX_HISTORY] at h
  show (if MAX_HISTORY < (st.history ++ [assignId fresh e]).length then _ else _) = _
  rw [if_pos (by simp only [List.length_append, List.length_singleton]; omega)]
  obtain ⟨a, t, hat⟩ := List.exists_cons_of_ne_nil hne
  rw [hat]
  simp

theorem recordOf_eq_assignId (p : String × Entry) : recordOf p = assignId p.1 p.2 := rfl

theorem runRecords_history_drop :
    ∀ (ps : List (String × Entry)) (st : Store), st.history.length ≤ MAX_HISTORY →
      (runRecords ps st).history =
        (st.history ++ ps.map recordOf).drop
          (st.history.length + ps.length - MAX_HISTORY) := by
  intro ps
  induction ps with
  | nil =>
    intro st h
    simp only [runRecords, List.foldl_nil, List.map_nil, List.append_nil, List.length_nil,
      Nat.add_zero]
    rw [show st.history.length - MAX_HISTORY = 0 by omega, List.drop_zero]
  | cons p ps ih =>
    intro st hle
    have hrun : runRecords (p :: ps) st = runRecords ps (storeAndBroadcast p.1 p.2 st) := rfl
    rcases lt_or_eq_of_le hle with h200 | h200
    · have hh := storeAndBroadcast_history_lt st p.1 p.2 h200
      rw [← recordOf_eq_assignId] at hh
      have hlen2 : (storeAndBroadcast p.1 p.2 st).history.length ≤ MAX_HISTORY := by
        rw [hh]
        simp only [List.length_append, List.length_singleton]
        omega
      rw [hrun, ih _ hlen2, hh]
      have hcnt : (st.history ++ [recordOf p]).length + ps.length - MAX_HISTORY
          = st.history.length + (p :: ps).length - MAX_HISTORY := by
        simp only [List.length_append, List.length_singleton, List.length_cons, List.length_nil]
        omega
      have harr : (st.history ++ [recordOf p]) ++ ps.map recordOf =
          st.history ++ (p :: ps).map recordOf := by
        simp
      rw [hcnt, harr]
    · have hh := storeAndBroadcast_history_full st p.1 p.2 h200
      rw [← recordOf_eq_assignId] at hh
      have hne : st.history ≠ [] := by
        intro heq
        rw [heq] at h200
        simp [MAX_HISTORY] at h200
      have hM : MAX_HISTORY = 200 := rfl
      have hlen2 : (storeAndBroadcast p.1 p.2 st).history.length ≤ MAX_HISTORY := by
        rw [hh]
        simp only [List.length_append, List.length_singleton, List.length_tail]
        omega
      rw [hrun, ih _ hlen2, hh]
      obtain ⟨a, t, hat⟩ := List.exists_cons_of_ne_nil hne
      have hlt : t.length + 1 = MAX_HISTORY := by
        rw [hat] at h200
        simpa using h200
      rw [hat, List.tail_cons]
      have hA : (t ++ [recordOf p]).length + ps.length - MAX_HISTORY = ps.length := by
        simp only [List.length_append, List.length_singleton, List.length_cons, List.length_nil]
        omega
      have hB : (a :: t).length + (p :: ps).length - MAX_HISTORY = ps.length + 1 := by
        simp only [List.length_cons, List.length_nil]
        omega
      rw [hA, hB]
      have e2 : (a :: t) ++ (p :: ps).map recordOf =
          a :: (t ++ recordOf p :: ps.map recordOf) := by
        simp
      have e3 : (t ++ [recordOf p]) ++ ps.map recordOf =
          t ++ recordOf p :: ps.map recordOf := by
        simp
      rw [e2, e3, List.drop_succ_cons]

/-- C1: over any sequence of storeAndBroadcast calls from the empty
store the history never exceeds 200 entries; storing 201 entries leaves
exactly the last 200 in insertion order, with the first stored entry
gone; and a store into a full buffer always evicts the head, the oldest
entry by insertion order. -/
theorem C1_history_bounded_fifo :
    (∀ ps : List (String × Entry),
      (runRecords ps emptyStore).history.length ≤ MAX_HISTORY) ∧
    (∀ (p0 : String × Entry) (ps : List (String × Entry)), ps.length = MAX_HISTORY →
      (runRecords (p0 :: ps) emptyStore).history = ps.map recordOf ∧
      (recordOf p0 ∉ ps.map recordOf →
        recordOf p0 ∉ (runRecords (p0 :: ps) emptyStore).history)) ∧
    (∀ (st : Store) (fresh : String) (e : Entry), st.history.length = MAX_HISTORY →
      (storeAndBroadcast fresh e st).history = st.history.tail ++ [assignId fresh e]) := by
  refine ⟨?_, ?_, ?_⟩
  · intro ps
    rw [runRecords_history_drop ps emptyStore (by simp [emptyStore])]
    simp only [List.length_drop, emptyStore, List.nil_append, List.length_map]
    omega
  · intro p0 ps hlen
    have h := runRecords_history_drop (p0 :: ps) emptyStore (by simp [emptyStore])
    simp only [List.map_cons] at h
    have h2 : (runRecords (p0 :: ps) emptyStore).history = List.map recordOf ps := by
      rw [h, show emptyStore.history.length + (p0 :: ps).length - MAX_HISTORY = 1 by
        simp only [emptyStore, List.length_nil, List.length_cons]
        omega]
      show List.drop 1 (([] : List Entry) ++ recordOf p0 :: List.map recordOf ps) = _
      simp
    exact ⟨h2, fun hmem => by rw [h2]; exact hmem⟩
  · intro st fresh e h
    exact storeAndBroadcast_history_full st fresh e h

/-- C1 witness: 201 inserts into the empty store keep the final 200
entries and drop the first, and a store into a full concrete buffer
shifts its head. -/
theorem C1_witness :
    (runRecords (("f", ⟨"a", "x"⟩) :: List.replicate 200 ("g", (⟨"b", "y"⟩ : Entry)))
        emptyStore).history =
      (List.replicate 200 ("g", (⟨"b", "y"⟩ : Entry))).map recordOf ∧
    recordOf ("f", ⟨"a", "x"⟩) ∉
      (runRecords (("f", ⟨"a", "x"⟩) :: List.replicate 200 ("g", (⟨"b", "y"⟩ : Entry)))
        emptyStore).history ∧
    (storeAndBroadcast "f" ⟨"a", "x"⟩
        ⟨none, List.replicate 200 (⟨"b", "y"⟩ : Entry)⟩).history =
      (List.replicate 200 (⟨"b", "y"⟩ : Entry)).tail ++ [assignId "f" ⟨"a", "x"⟩] := by
  have h := C1_history_bounded_fifo.2.1 ("f", ⟨"a", "x"⟩)
    (List.replicate 200 ("g", (⟨"b", "y"⟩ : Entry))) (by rw [List.length_replicate]; rfl)
  have h3 := C1_history_bounded_fifo.2.2 ⟨none, List.replicate 200 (⟨"b", "y"⟩ : Entry)⟩
    "f" ⟨"a", "x"⟩ (by rw [List.length_replicate]; rfl)
  refine ⟨h.1, h.2 ?_, h3⟩
  decide

theorem removeFirstById_of_not_mem (id : String) :
    ∀ l : List Entry, (∀ e ∈ l, e.id ≠ id) → removeFirstById id l = l := by
  intro l
  induction l with
  | nil => intro _; rfl
  | cons a rest ih =>
    intro h
    rw [removeFirstById, if_neg (h a (by simp))]
    rw [ih fun e he => h e (by simp [he])]

theorem removeFirstById_append (id : String) :
    ∀ (pre : List Entry) (x : Entry) (post : List Entry),
      (∀ e ∈ pre, e.id ≠ id) → x.id = id →
      removeFirstById id (pre ++ x :: post) = pre ++ post := by
  intro pre
  induction pre with
  | nil =>
    intro x post _ hx
    simp [removeFirstById, hx]
  | cons a t ih =>
    intro x post hpre hx
    rw [List.cons_append, removeFirstById, if_neg (hpre a (by simp))]
    rw [ih x post (fun e he => hpre e (by simp [he])) hx, List.cons_append]

theorem getLast?_removeFirstById (id : String) :
    ∀ (l : List Entry) (x : Entry), l.getLast? = some x → x.id ≠ id →
      (removeFirstById id l).getLast? = some x := by
  intro l
  induction l with
  | nil => intro x h; simp at h
  | cons a rest ih =>
    intro x hlast hxid
    cases rest with
    | nil =>
      simp only [List.getLast?_singleton, Option.some_inj] at hlast
      subst hlast
      rw [removeFirstById, if_neg hxid]
      rfl
    | cons b t =>
      rw [List.getLast?_cons_cons] at hlast
      by_cases ha : a.id = id
      · rw [removeFirstById, if_pos ha]
        exact hlast
      · rw [removeFirstById, if_neg ha]
        have hm := ih x hlast hxid
        have hne : removeFirstById id (b :: t) ≠ [] := by
          intro heq
          rw [heq] at hm
          simp at hm
        obtain ⟨c, m, hcm⟩ := List.exists_cons_of_ne_nil hne
        rw [hcm] at hm
        rw [hcm, List.getLast?_cons_cons]
        exact hm

theorem storeInv_step (st : Store) (op : Op) (h : StoreInv st) : StoreInv (stepOp st op) := by
  cases op with
  | record fresh e =>
    show (storeAndBroadcast fresh e st).lastResult = (storeAndBroadcast fresh e st).history.getLast?
    by_cases hover : st.history.length = MAX_HISTORY
    · rw [storeAndBroadcast_history_full st fresh e hover]
      show some (assignId fresh e) = _
      rw [List.getLast?_concat]
    · rcases Ne.lt_or_lt hover with hlt | hgt
      · rw [storeAndBroadcast_history_lt st fresh e hlt]
        show some (assignId fresh e) = _
        rw [List.getLast?_concat]
      · show some (assignId fresh e) =
          (if MAX_HISTORY < (st.history ++ [assignId fresh e]).length then
            (st.history ++ [assignId fresh e]).tail
           else st.history ++ [assignId fresh e]).getLast?
        rw [if_pos (by simp only [List.length_append, List.length_singleton]; omega)]
        have hne : st.history ≠ [] := by
          intro heq
          rw [heq] at hgt
          simp [MAX_HISTORY] at hgt
        obtain ⟨a, t, hat⟩ := List.exists_cons_of_ne_nil hne
        rw [hat]
        simp only [List.cons_append, List.tail_cons]
        rw [List.getLast?_concat]
  | ack id =>
    show (removeById st id).1.lastResult = (removeById st id).1.history.getLast?
    rw [StoreInv] at h
    cases hlr : st.lastResult with
    | none =>
      have hnil : st.history = [] := by
        rw [hlr] at h
        exact List.getLast?_eq_none_iff.mp h.symm
      show (match st.lastResult with
        | some lr => if lr.id = id then (removeFirstById id st.history).getLast? else some lr
        | none => none) = (removeFirstById id st.history).getLast?
      simp only [hlr, hnil]
      rfl
    | some lr =>
      show (match st.lastResult with
        | some lr => if lr.id = id then (removeFirstById id st.history).getLast? else some lr
        | none => none) = (removeFirstById id st.history).getLast?
      simp only [hlr]
      by_cases hid : lr.id = id
      · rw [if_pos hid]
      · rw [if_neg hid]
        have hlast : st.history.getLast? = some lr := by rw [← h, hlr]
        exact (getLast?_removeFirstById id st.history lr hlast hid).symm

/-- C9: in every state reachable by record and acknowledge operations
from the empty store, lastResult is null exactly when the history is
empty, and otherwise lastResult is the most recently inserted element of
the history buffer. -/
theorem C9_lastResult_tracks_history :
    ∀ ops : List Op,
      ((runOps ops).lastResult = none ↔ (runOps ops).history = []) ∧
      ∀ e : Entry, (runOps ops).lastResult = some e ↔ (runOps ops).history.getLast? = some e := by
  have key : ∀ (l : List Op) (st : Store), StoreInv st → StoreInv (l.foldl stepOp st) := by
    intro l
    induction l with
    | nil => intro st h; exact h
    | cons op rest ih => intro st h; exact ih _ (storeInv_step st op h)
  intro ops
  have h : (runOps ops).lastResult = (runOps ops).history.getLast? :=
    key ops emptyStore rfl
  constructor
  · rw [h]
    exact List.getLast?_eq_none_iff
  · intro e
    rw [h]

/-- C9 witness: after one record the last result is the stored entry,
the tail of the one-element history. -/
theorem C9_witness :
    (runOps [Op.record "f" ⟨"a", "x"⟩]).lastResult = some ⟨"a", "x"⟩ := by
  have h := (C9_lastResult_tracks_history [Op.record "f" ⟨"a", "x"⟩]).2 ⟨"a", "x"⟩
  refine h.mpr ?_
  decide

/-- C6: on any store satisfying the reachable-state invariant that
lastResult is the tail of the history, acknowledge returns the requested
id, is an identity when no entry carries the id, and otherwise removes
exactly the first entry with that id; when that entry was the current
last result the new last result is the tail of the remaining buffer,
none when the buffer emptied. -/
theorem C6_removeById_first_match_and_noop :
    ∀ (st : Store) (id : String), StoreInv st →
      (removeById st id).2 = id ∧
      ((∀ e ∈ st.history, e.id ≠ id) → removeById st id = (st, id)) ∧
      (∀ (pre : List Entry) (x : Entry) (post : List Entry),
        st.history = pre ++ x :: post → (∀ e ∈ pre, e.id ≠ id) → x.id = id →
        (removeById st id).1.history = pre ++ post ∧
        (st.lastResult = some x →
          (removeById st id).1.lastResult = (pre ++ post).getLast?)) := by
  intro st id hinv
  refine ⟨rfl, ?_, ?_⟩
  · intro hnm
    have hh : removeFirstById id st.history = st.history :=
      removeFirstById_of_not_mem id st.history hnm
    obtain ⟨lastR, hist⟩ := st
    cases hlr : lastR with
    | none =>
      simp only [removeById, hh, hlr]
    | some lr =>
      have hmem : lr ∈ hist := by
        rw [StoreInv] at hinv
        simp only [hlr] at hinv
        exact List.mem_of_getLast?_eq_some hinv.symm
      have hne : lr.id ≠ id := hnm lr hmem
      simp only [removeById, hh, hlr, if_neg hne]
  · intro pre x post hsplit hpre hx
    have hh : removeFirstById id st.history = pre ++ post := by
      rw [hsplit]
      exact removeFirstById_append id pre x post hpre hx
    refine ⟨by simp [removeById, hh], ?_⟩
    intro hlr
    simp only [removeById, hh, hlr, if_pos hx]

/-- C6 witness: on a concrete two-entry store, acknowledging an unknown
id is an identity returning that id, and acknowledging the id of the
last result removes it and promotes the remaining tail. -/
theorem C6_witness :
    removeById ⟨some ⟨"b", "y"⟩, [⟨"a", "x"⟩, ⟨"b", "y"⟩]⟩ "z" =
      (⟨some ⟨"b", "y"⟩, [⟨"a", "x"⟩, ⟨"b", "y"⟩]⟩, "z") ∧
    (removeById ⟨some ⟨"b", "y"⟩, [⟨"a", "x"⟩, ⟨"b", "y"⟩]⟩ "b").1.history = [⟨"a", "x"⟩] ∧
    (removeById ⟨some ⟨"b", "y"⟩, [⟨"a", "x"⟩, ⟨"b", "y"⟩]⟩ "b").1.lastResult =
      some ⟨"a", "x"⟩ := by
  have h1 := (C6_removeById_first_match_and_noop
    ⟨some ⟨"b", "y"⟩, [⟨"a", "x"⟩, ⟨"b", "y"⟩]⟩ "z" (by exact rfl)).2.1 (by decide)
  have h2 := (C6_removeById_first_match_and_noop
    ⟨some ⟨"b", "y"⟩, [⟨"a", "x"⟩, ⟨"b", "y"⟩]⟩ "b" (by exact rfl)).2.2
    [⟨"a", "x"⟩] ⟨"b", "y"⟩ [] (by decide) (by decide) (by decide)
  exact ⟨h1, by simpa using h2.1, by simpa using h2.2 (by decide)⟩

theorem movingAvg_getD (hs : List ℚ) (i : ℕ) (h : i < hs.length) :
    (movingAvg hs).getD i 0 =
      ((hs.take (i + 1)).drop (i - 4)).sum /
        ((((hs.take (i + 1)).drop (i - 4)).length : ℕ) : ℚ) := by
  rw [movingAvg, List.getD_eq_getElem?_getD, List.getElem?_map, List.getElem?_range h]
  rfl

theorem forecastPoints_eq (slope : Option ℚ) :
    ∀ (n : ℕ) (c : ℚ),
      forecastPoints slope n c =
        (List.range n).map fun k => jround ((projStep slope)^[k + 1] c) := by
  intro n
  induction n with
  | zero => intro c; rfl
  | succ n ih =>
    intro c
    show jround (projStep slope c) :: forecastPoints slope n (projStep slope c) = _
    rw [ih (projStep slope c), List.range_succ_eq_map, List.map_cons, List.map_map]
    congr 1

theorem projStep_nonneg (slope : Option ℚ) (c : ℚ) : 0 ≤ projStep slope c :=
  le_min (by norm_num) (le_max_left _ _)

theorem projStep_le_hundred (slope : Option ℚ) (c : ℚ) : projStep slope c ≤ 100 :=
  min_le_left _ _

/-- C7: on a non-empty percent series the predict route computes the
trailing moving average whose window at index i is the suffix of length
min 5 (i+1) of the first i+1 entries, takes the slope as the difference
of the last two averages and null exactly when fewer than two exist, and
emits as points the rounded iterates of the add-slope-then-clamp step
started from the last average, the default step being one half when the
slope is null; every emitted point lies between 0 and 100. -/
theorem C7_moving_average_predictor :
    ∀ (hs : List ℚ) (n : ℕ), hs ≠ [] →
      (movingAvg hs).length = hs.length ∧
      (∀ i, i < hs.length →
        ((hs.take (i + 1)).drop (i - 4)).length = min 5 (i + 1) ∧
        (movingAvg hs).getD i 0 =
          ((hs.take (i + 1)).drop (i - 4)).sum / ((min 5 (i + 1) : ℕ) : ℚ)) ∧
      ((predictRoute hs n).slope_per_hr = none ↔ hs.length < 2) ∧
      (2 ≤ hs.length → (predictRoute hs n).slope_per_hr =
        some ((movingAvg hs).getD (hs.length - 1) 0 -
          (movingAvg hs).getD (hs.length - 2) 0)) ∧
      ((predictRoute hs n).points =
        (List.range n).map fun k =>
          jround ((projStep (slopeOfAvg (movingAvg hs)))^[k + 1]
            ((movingAvg hs).getD (hs.length - 1) 0))) ∧
      (∀ z ∈ (predictRoute hs n).points, 0 ≤ z ∧ z ≤ 100) := by
  intro hs n hne
  have hlenm : (movingAvg hs).length = hs.length := by simp [movingAvg]
  have hwin : ∀ i, i < hs.length →
      ((hs.take (i + 1)).drop (i - 4)).length = min 5 (i + 1) := by
    intro i hi
    simp only [List.length_drop, List.length_take]
    omega
  have hpr : predictRoute hs n =
      ⟨slopeOfAvg (movingAvg hs),
       forecastPoints (slopeOfAvg (movingAvg hs)) n
         ((movingAvg hs).getD ((movingAvg hs).length - 1) 0)⟩ := by
    rw [predictRoute, if_neg hne]
  refine ⟨hlenm, ?_, ?_, ?_, ?_, ?_⟩
  · intro i hi
    exact ⟨hwin i hi, by rw [movingAvg_getD hs i hi, hwin i hi]⟩
  · rw [hpr]
    show slopeOfAvg (movingAvg hs) = none ↔ hs.length < 2
    rw [slopeOfAvg]
    by_cases h2 : 2 ≤ (movingAvg hs).length
    · rw [if_pos h2]
      rw [hlenm] at h2
      constructor
      · intro hx
        exact absurd hx (by simp)
      · intro hx
        omega
    · rw [if_neg h2]
      rw [hlenm] at h2
      constructor
      · intro _
        omega
      · intro _
        rfl
  · intro h2
    rw [hpr]
    show slopeOfAvg (movingAvg hs) = _
    rw [slopeOfAvg, if_pos (by rw [hlenm]; exact h2), hlenm]
  · rw [hpr]
    show forecastPoints _ n _ = _
    rw [forecastPoints_eq, hlenm]
  · intro z hz
    rw [hpr] at hz
    have hz2 : z ∈ forecastPoints (slopeOfAvg (movingAvg hs)) n
        ((movingAvg hs).getD ((movingAvg hs).length - 1) 0) := hz
    rw [forecastPoints_eq] at hz2
    obtain ⟨k, _, rfl⟩ := List.mem_map.mp hz2
    rw [Function.iterate_succ_apply']
    exact ⟨jround_nonneg (projStep_nonneg _ _), jround_le_hundred (projStep_le_hundred _ _)⟩

/-- C7 witness: the two-point series 10, 20 over a two-hour horizon. -/
theorem C7_witness :
    (predictRoute [(10 : ℚ), 20] 2).points =
      (List.range 2).map (fun k =>
        jround ((projStep (slopeOfAvg (movingAvg [(10 : ℚ), 20])))^[k + 1]
          ((movingAvg [(10 : ℚ), 20]).getD (([(10 : ℚ), 20] : List ℚ).length - 1) 0))) ∧
    ∀ z ∈ (predictRoute [(10 : ℚ), 20] 2).points, 0 ≤ z ∧ z ≤ 100 := by
  have h := C7_moving_average_predictor [(10 : ℚ), 20] 2 (by simp)
  exact ⟨h.2.2.2.2.1, h.2.2.2.2.2⟩

theorem keepChar_eq_keepCharEnum (c : Char) : keepChar c = keepCharEnum c := by
  rw [Bool.eq_iff_iff]
  simp only [keepChar, keepCharEnum, isDigitChar, Bool.or_eq_true, Bool.and_eq_true,
    decide_eq_true_eq, beq_iff_eq, List.mem_cons, List.not_mem_nil, or_false]
  omega

/-- C2 counterexample: the claim describes the stripped set as digits,
sign, decimal point and exponent marker, under which the string 1,5
would strip to 15 and parse; the implemented character class also keeps
the comma, so the parse fails and numOrNull returns null instead. -/
theorem C2_counterexample :
    numOrNull (.str "1,5") = none ∧
    numOrNullSpec (.str "1,5") = some 15 ∧
    numOrNull (.str "1,5") ≠ numOrNullSpec (.str "1,5") := by
  refine ⟨?_, ?_, ?_⟩
  · simp +decide [numOrNull, stripNonNumeric, keepChar, isDigitChar, jsNumber, parseBody,
      parseExp, digitsVal, digitVal, List.takeWhile, List.dropWhile, List.filter]
  · simp +decide [numOrNullSpec, specKeepChar, isDigitChar, jsNumber, parseBody,
      parseExp, digitsVal, digitVal, List.takeWhile, List.dropWhile, List.filter]
  · simp +decide [numOrNull, numOrNullSpec, stripNonNumeric, keepChar, specKeepChar,
      isDigitChar, jsNumber, parseBody, parseExp, digitsVal, digitVal,
      List.takeWhile, List.dropWhile, List.filter]

/-- C2 amended: numbers pass through unchanged and the noisy string
12.3cm still parses to 12.3, but the characters kept by the stripping
step are the digits, the dot, the lowercase e, and the whole code range
from plus to uppercase E, which adds comma, slash, colon, semicolon,
the comparison signs, question mark, at sign and the capitals A to D to
the set the claim lists. -/
theorem C2_amended_numOrNull_strip :
    (∀ q : ℚ, numOrNull (.num q) = some q) ∧
    numOrNull (.str "12.3cm") = some (123 / 10) ∧
    ∀ s : String, numOrNull (.str s) =
      jsNumber (String.mk (s.toList.filter keepCharEnum)) := by
  refine ⟨fun q => rfl, ?_, ?_⟩
  · simp +decide [numOrNull, stripNonNumeric, keepChar, jsNumber, parseBody, parseExp,
      digitsVal, digitVal, isDigitChar, List.takeWhile, List.dropWhile, List.filter]
    norm_num
  · intro s
    show jsNumber (stripNonNumeric s) = _
    rw [stripNonNumeric, List.filter_congr fun c _ => keepChar_eq_keepCharEnum c]

/-- C8 counterexample: the raw override value 2 is neither 1 nor the
string 1, and its numeric coercion 2 is truthy, so the normalized event
carries override 2, outside the claimed set of 0 and 1. -/
theorem C8_counterexample :
    (normalizeClassification "t0" "src" { override := .prim (.num 2) }).override = .fin 2 ∧
    ¬(JsNum.fin 2 = .fin 0 ∨ JsNum.fin 2 = .fin 1) := by
  constructor
  · show classOverride (.prim (.num 2)) = .fin 2
    rw [classOverride, if_neg (by decide),
      if_pos ((JsNum.truthy_iff _).mpr ⟨by simp [jsToNumber], by
        simp only [jsToNumber, ne_eq, JsNum.fin.injEq]
        norm_num⟩)]
    rfl
  · simp only [JsNum.fin.injEq, not_or]
    norm_num

/-- C8 amended: the normalized override is 1 when the raw override is
the number 1 or the string 1; otherwise it is 0 or 1 except when the
raw value coerces under ToNumber to a truthy number other than 1, that
is a nonzero non-NaN value which may also be an infinity, in which case
that value is passed through unchanged. -/
theorem C8_amended_override :
    ∀ (p : ClassIn) (now src : String),
      ((normalizeClassification now src p).override = .fin 0 ∨
        (normalizeClassification now src p).override = .fin 1) ∨
      (jsToNumber p.override ≠ .nan ∧ jsToNumber p.override ≠ .fin 0 ∧
        jsToNumber p.override ≠ .fin 1 ∧
        (normalizeClassification now src p).override = jsToNumber p.override) := by
  intro p now src
  have hov : (normalizeClassification now src p).override = classOverride p.override := rfl
  rw [hov, classOverride]
  by_cases h1 : p.override = .prim (.num 1) ∨ p.override = .prim (.str "1")
  · rw [if_pos h1]
    left
    right
    rfl
  · rw [if_neg h1]
    by_cases ht : (jsToNumber p.override).truthy
    · rw [if_pos ht]
      obtain ⟨hnan, h0⟩ := (JsNum.truthy_iff _).mp ht
      by_cases hone : jsToNumber p.override = .fin 1
      · left
        right
        exact hone
      · right
        exact ⟨hnan, h0, hone, rfl⟩
    · rw [if_neg ht]
      left
      left
      rfl

/-- C8 witness: the string Infinity coerces to the positive infinity
and is passed through as the override, the string 0x10 coerces to 16
and is passed through, and a missing override yields 0. -/
theorem C8_witness :
    (normalizeClassification "t0" "src" { override := .prim (.str "Infinity") }).override =
      .posInf ∧
    (normalizeClassification "t0" "src" { override := .prim (.str "0x10") }).override =
      .fin 16 ∧
    (normalizeClassification "t0" "src" ({} : ClassIn)).override = .fin 0 := by
  have hinf : jsToNumber (Val.prim (.str "Infinity")) = .posInf := by
    show toNumberString "Infinity" = .posInf
    simp +decide [toNumberString, trimChars, isJsWhitespace, List.dropWhile]
  have hhex : jsToNumber (Val.prim (.str "0x10")) = .fin 16 := by
    show toNumberString "0x10" = .fin 16
    simp +decide [toNumberString, trimChars, isJsWhitespace, List.dropWhile,
      nonDecimalLiteral, radixVal, hexDigitVal]
    rw [toDouble, if_neg (by norm_num [DOUBLE_OVERFLOW]),
      if_neg (by norm_num [DOUBLE_OVERFLOW]), if_neg (by norm_num [DOUBLE_UNDERFLOW])]
  refine ⟨?_, ?_, ?_⟩
  · show classOverride (.prim (.str "Infinity")) = .posInf
    rw [classOverride, if_neg (by decide), hinf]
    rfl
  · show classOverride (.prim (.str "0x10")) = .fin 16
    rw [classOverride, if_neg (by decide), hhex,
      if_pos ((JsNum.truthy_iff _).mpr ⟨by simp, by
        simp only [ne_eq, JsNum.fin.injEq]
        norm_num⟩)]
  · rfl

/-- C10 counterexample: the recycle alias key holds the truthy
non-object 5 while the blue alias holds an object, yet the output has
no recycle compartment at all: the or chain resolves to the first
truthy alias and drops the later object. -/
theorem C10_counterexample :
    (normalizeSensors
      { recycle := .prim (.num 5), blue := .obj { ultrasonic := .num 3 } }).recycle = none ∧
    (normalizeSensors
      { recycle := .prim (.num 5), blue := .obj { ultrasonic := .num 3 } }).general = none ∧
    ({ recycle := .prim (.num 5), blue := .obj { ultrasonic := .num 3 } }
      : SensorsIn).blue = .obj { ultrasonic := .num 3 } := by
  refine ⟨?_, ?_, rfl⟩
  all_goals
    simp +decide [normalizeSensors, recycleSrc, generalSrc, orV, asObj, numOrNullV,
      numOrNull, coalesceV, Val.truthy, Val.isNullish, Prim.isNullish]

/-- C10 amended: when the alias resolution of a compartment, the first
truthy value among its alias keys in source order, is an object, the
output contains that compartment, possibly as an empty record; and once
either compartment branch runs, the output is unchanged when the flat
top-level ultrasonic, distance, dist and weight fields are erased: the
legacy fallback is not applied. -/
theorem C10_amended_alias_resolution :
    ∀ s : SensorsIn,
      ((asObj (recycleSrc s)).isSome → (normalizeSensors s).recycle.isSome) ∧
      ((asObj (generalSrc s)).isSome → (normalizeSensors s).general.isSome) ∧
      (((asObj (recycleSrc s)).isSome ∨ (asObj (generalSrc s)).isSome) →
        normalizeSensors s = normalizeSensors (clearFlat s)) := by
  intro s
  have hrc : recycleSrc (clearFlat s) = recycleSrc s := rfl
  have hgc : generalSrc (clearFlat s) = generalSrc s := rfl
  refine ⟨?_, ?_, ?_⟩
  · intro h
    obtain ⟨o, ho⟩ := Option.isSome_iff_exists.mp h
    simp [normalizeSensors, ho]
  · intro h
    obtain ⟨o, ho⟩ := Option.isSome_iff_exists.mp h
    simp [normalizeSensors, ho]
  · intro h
    rcases h with h | h
    all_goals
      obtain ⟨o, ho⟩ := Option.isSome_iff_exists.mp h
      simp [normalizeSensors, hrc, hgc, ho]

/-- C10 witness: a payload whose recycle alias holds an empty object
while a finite flat distance is present keeps the empty recycle record
and ignores the flat fallback. -/
theorem C10_witness :
    (normalizeSensors
      { recycle := .obj {}, distance := .prim (.num 7) }).recycle.isSome ∧
    normalizeSensors { recycle := .obj {}, distance := .prim (.num 7) } =
      normalizeSensors
        (clearFlat { recycle := .obj {}, distance := .prim (.num 7) }) := by
  have h := C10_amended_alias_resolution { recycle := .obj {}, distance := .prim (.num 7) }
  exact ⟨h.1 (by decide), h.2.2 (Or.inl (by decide))⟩

end SmartBin
